import Mathlib

/-!
Verification of the feature-selection core (`src/selection.js`).

The development shallowly embeds the JavaScript module `FeatureSelection`:
the per-worker static selection map (`createSelector` / `getSelector` /
`reset`), and the main-thread request queue with its framebuffer readback
(`read`), reply handling (`finishRead`), cancellation
(`clearPendingRequests`) and per-UI-state cache (`updateState`).

JavaScript 32-bit bitwise arithmetic (`<<`, `>>`, `&`, `>>> 0`) is modelled
exactly via two's-complement conversion on `Int`; machine integers are
`Nat`/`Int` with explicit reductions mod `2^32`.
-/

namespace Tangram

/-! ## JavaScript 32-bit integer operations

JS bitwise operators coerce their operands with ToInt32 (two's complement)
and `>>> 0` coerces with ToUint32.  Numeric `+` on the resulting values is
exact as long as magnitudes stay below `2^53`, which holds everywhere in
the source. -/

/-- JS ToInt32: reduce an integer into `[-2^31, 2^31)` (two's complement). -/
def toInt32 (n : Int) : Int :=
  (n + 2147483648) % 4294967296 - 2147483648

/-- JS ToUint32 (the `>>> 0` coercion): reduce an integer into `[0, 2^32)`. -/
def toUint32 (n : Int) : Nat :=
  (n % 4294967296).toNat

/-- JS `a << b`: ToInt32 the operand, shift left, wrap to 32 bits signed. -/
def jsShl (a : Int) (b : Nat) : Int :=
  toInt32 (toInt32 a * ((2 ^ b : Nat) : Int))

/-- JS `a >> b`: ToInt32 the operand, arithmetic shift right
(floor division by `2^b`; for a positive divisor `Int.ediv` is floor). -/
def jsShr (a : Int) (b : Nat) : Int :=
  (toInt32 a) / ((2 ^ b : Nat) : Int)

/-- JS `a & 255`: two's-complement AND with the low byte mask, which equals
the Euclidean remainder mod 256. -/
def and255 (a : Int) : Nat :=
  ((toInt32 a) % 256).toNat

/-! ## Worker-side selection map (static `FeatureSelection` state)

One `WorkerSel` value models the module-level static state of
`FeatureSelection` inside a single worker: `map`, `tiles`, `groups`,
`group_index`, `map_size`, `map_index`, `map_prefix`.  JS object maps are
modelled as association lists where assignment prepends a binding and
lookup returns the most recent one (matching overwrite-on-assignment). -/

/-- Group assignment attached to a selector entry:
`{index, key, value}` from `getSelector`.  Values flowing out of
`draw.selection_prop` are modelled as `Option String` (`none` = JS
`undefined`); JS string coercion renders `undefined` as `"undefined"`,
and truthiness of a string is non-emptiness. -/
structure GroupInfo where
  index : Nat × Nat × Nat × Nat
  key : String
  value : Option String
deriving DecidableEq, Repr

/-- Subset of tile properties stored per tile by `createSelector`. -/
structure TileInfo where
  key : String
  coords : Int × Int × Int
  style_zoom : Nat
  source : String
  generation : Nat
deriving DecidableEq, Repr

/-- A tile handed to `createSelector` / `getSelector` (the fields the
source reads). -/
structure Tile where
  key : String
  coords : Int × Int × Int
  style_zoom : Nat
  source : String
  generation : Nat
deriving DecidableEq, Repr

/-- The feature descriptor written by `getSelector` onto a selector entry. -/
structure FeatureOut where
  properties : List (String × Option String)
  source_name : String
  source_layer : String
  layers : List String
  tile : TileInfo
  hover_color : Option String
  click_color : Option String
deriving DecidableEq, Repr

/-- One entry of the worker's selection map.  `createSelector` stores only
`color` (kept here as the four raw bytes `ir, ig, ib, ia`; the source
additionally divides each by 255 for GL, a presentation detail no claim
touches); `getSelector` then fills `feature` and `group`. -/
structure SelectorEntry where
  color : Nat × Nat × Nat × Nat
  feature : Option FeatureOut := none
  group : Option GroupInfo := none
deriving DecidableEq, Repr

/-- Per-tile tracking info: the set of feature entry keys plus the tile
property subset. -/
structure TileEntry where
  entries : List Nat
  tile : TileInfo
deriving DecidableEq, Repr

/-- Static per-worker state of `FeatureSelection`. -/
structure WorkerSel where
  map : List (Nat × SelectorEntry)
  tiles : List (String × TileEntry)
  groups : List (String × (Nat × Nat × Nat × Nat))
  group_index : Nat
  map_size : Nat
  map_index : Nat
  map_prefix : Nat
deriving DecidableEq, Repr

/-- Assoc-list lookup modelling JS object indexing (most recent binding
wins, as later assignments overwrite). -/
def assocFind {α β : Type} [DecidableEq α] (k : α) : List (α × β) → Option β
  | [] => none
  | (k', v) :: t => if k' = k then some v else assocFind k t

/-- `FeatureSelection.reset()`: clears groups, tiles, map, map_size and
map_index.  (`group_index` and `map_prefix` are deliberately untouched,
exactly as in the source.) -/
def reset (s : WorkerSel) : WorkerSel :=
  { s with groups := [], tiles := [], map := [], map_size := 0, map_index := 0 }

/-- The 32-bit color key `(ir + (ig << 8) + (ib << 16) + (ia << 24)) >>> 0`
computed by `createSelector` and re-computed by `read` from sampled pixel
bytes. -/
def mkKey (ir ig ib ia : Nat) : Nat :=
  toUint32 ((ir : Int) + jsShl ig 8 + jsShl ib 16 + jsShl ia 24)

/-- The four color bytes derived from a (post-increment) counter value and
the worker prefix in `createSelector`:
`ir = idx & 255`, `ig = (idx >> 8) & 255`, `ib = (idx >> 16) & 255`,
`ia = map_prefix`. -/
def selBytes (idx pfx : Nat) : Nat × Nat × Nat × Nat :=
  (and255 idx, and255 (jsShr idx 8), and255 (jsShr idx 16), pfx)

/-- `FeatureSelection.createSelector(tile)`: increments the counter,
derives the four color bytes and the 32-bit key, stores a fresh entry in
the map, registers the key under the tile, and returns the entry (paired
here with its key, the handle the claims are about). -/
def createSelector (tile : Tile) (s : WorkerSel) : (Nat × SelectorEntry) × WorkerSel :=
  let idx := s.map_index + 1
  let bs := selBytes idx ( WorkerSel.map_prefix s)
  let key := mkKey bs.1 bs.2.1 bs.2.2.1 bs.2.2.2
  let entry : SelectorEntry := { color := bs }
  let tiles' :=
    match assocFind tile.key s.tiles with
    | some te =>
        (tile.key, { te with entries := te.entries ++ [key] }) :: s.tiles
    | none =>
        (tile.key,
          { entries := [key],
            tile := { key := tile.key, coords := tile.coords,
                      style_zoom := tile.style_zoom, source := tile.source,
                      generation := tile.generation } }) :: s.tiles
  ((key, entry),
    { s with
      map := (key, entry) :: s.map
      map_size := s.map_size + 1
      map_index := idx
      tiles := tiles' })

/-- A run of successive `createSelector` calls (one per tile in the list),
collecting the returned (key, entry) pairs. -/
def runCreate (tl : List Tile) (s : WorkerSel) : List (Nat × SelectorEntry) × WorkerSel :=
  match tl with
  | [] => ([], s)
  | tile :: rest =>
    let step := createSelector tile s
    let rest' := runCreate rest step.2
    (step.1 :: rest'.1, rest'.2)

/-! ## `getSelector`: group assignment

`draw.selection_prop` is either a function of the style context or a
property name; the produced group value is a JS value modelled as
`Option String` (`none` = `undefined`, e.g. a missing property).  JS
coerces it into the composite key with string concatenation
(`undefined` renders as `"undefined"`), and tests it for truthiness
(`undefined` and the empty string are falsy). -/

/-- JS string coercion of a (possibly undefined) value. -/
def jsToString : Option String → String
  | none => "undefined"
  | some s => s

/-- JS truthiness of a (possibly undefined) string value. -/
def jsTruthy : Option String → Bool
  | none => false
  | some s => s ≠ ""

/-- The fields of the style `context` read by `getSelector`. -/
structure Ctx where
  source : String
  layer : String
  layers : List String
deriving DecidableEq, Repr

/-- `draw.selection_prop`: a function of the context or a property name. -/
inductive SelProp where
  | func (f : Ctx → Option String)
  | propName (name : String)

/-- The fields of `draw` read by `getSelector`. -/
structure Draw where
  selection_prop : SelProp
  selection_group : String
  hover_color : Option String
  click_color : Option String

/-- The fields of `feature` read by `getSelector`. -/
structure FeatureIn where
  properties : List (String × Option String)
deriving DecidableEq, Repr

/-- The group value: `selection_prop(context)` when it is a function,
else `feature.properties[selection_prop]`. -/
def groupValueOf (sp : SelProp) (feature : FeatureIn) (context : Ctx) : Option String :=
  match sp with
  | .func f => f context
  | .propName p => (assocFind p feature.properties).getD none

/-- `FeatureSelection.getSelector(feature, draw, tile, context)`: derives
the group value and composite group key, allocates a selector entry via
`createSelector`, writes the feature descriptor onto it, allocates or
reuses the group index color for truthy group values (sentinel
`[255,255,255,255]` otherwise), and returns the completed entry. -/
def getSelector (feature : FeatureIn) (draw : Draw) (tile : Tile) (context : Ctx)
    (s : WorkerSel) : (Nat × SelectorEntry) × WorkerSel :=
  let group_value := groupValueOf draw.selection_prop feature context
  let group_key := draw.selection_group ++ ":" ++ jsToString group_value
  let step := createSelector tile s
  let key := step.1.1
  let sel := step.1.2
  let s1 := step.2
  let ftile :=
    match assocFind tile.key s1.tiles with
    | some te => te.tile
    | none => { key := tile.key, coords := tile.coords, style_zoom := tile.style_zoom,
                source := tile.source, generation := tile.generation }
  let fdesc : FeatureOut :=
    { properties := feature.properties
      source_name := context.source
      source_layer := context.layer
      layers := context.layers
      tile := ftile
      hover_color := draw.hover_color
      click_color := draw.click_color }
  let gstep : Option (Nat × Nat × Nat × Nat) × WorkerSel :=
    if jsTruthy group_value then
      match assocFind group_key s1.groups with
      | some g => (some g, s1)
      | none =>
        let gi := s1.group_index + 1
        let g := (and255 gi, and255 (jsShr gi 8), and255 (jsShr gi 16), 255)
        (some g, { s1 with group_index := gi, groups := (group_key, g) :: s1.groups })
    else (none, s1)
  let grp := gstep.1
  let s2 := gstep.2
  let ginfo : GroupInfo :=
    { index := grp.getD (255, 255, 255, 255), key := group_key, value := group_value }
  let sel' := { sel with feature := some fdesc, group := some ginfo }
  ((key, sel'), { s2 with map := (key, sel') :: s2.map })

/-- Arguments of one `getSelector` call, for stating properties of call
sequences. -/
structure GetSelArgs where
  feature : FeatureIn
  draw : Draw
  tile : Tile
  context : Ctx

/-- A run of successive `getSelector` calls. -/
def runGetSelector (calls : List GetSelArgs) (s : WorkerSel) :
    List (Nat × SelectorEntry) × WorkerSel :=
  match calls with
  | [] => ([], s)
  | c :: rest =>
    let step := getSelector c.feature c.draw c.tile c.context s
    let rest' := runGetSelector rest step.2
    (step.1 :: rest'.1, rest'.2)

/-! ## JSON value model

`finishRead` deep-compares the newly resolved feature against the stored
one with `JSON.stringify(feature) !== JSON.stringify(this.feature)`.  We
model the JS values flowing through that comparison as JSON trees: an
object is its ordered field list (JS objects enumerate keys in insertion
order and `JSON.stringify` serializes them in that order), strings are
lists of character codes (so the `"` / `\` escaping of the serializer is
modelled exactly), and the numeric leaves are modelled as integers.
`stringify` produces the serialized character-code list. -/

mutual
inductive Json where
  | null : Json
  | num : Int → Json
  | str : List Nat → Json
  | arr : JArr → Json
  | obj : JObj → Json
deriving DecidableEq, Repr
inductive JArr where
  | nil : JArr
  | cons : Json → JArr → JArr
deriving DecidableEq, Repr
inductive JObj where
  | nil : JObj
  | cons : List Nat → Json → JObj → JObj
deriving DecidableEq, Repr
end

/-- JSON string escaping: `"` (34) and `\` (92) are preceded by a
backslash. -/
def escapeCodes : List Nat → List Nat
  | [] => []
  | c :: t => if c = 34 ∨ c = 92 then 92 :: c :: escapeCodes t else c :: escapeCodes t

/-- Decimal digit codes of a natural number (most significant first;
`0` renders as `"0"`). -/
def natCodes (m : Nat) : List Nat :=
  if m = 0 then [48] else ((Nat.digits 10 m).reverse.map (· + 48))

/-- Decimal rendering of an integer, with `-` (45) for negatives. -/
def numCodes (n : Int) : List Nat :=
  if n < 0 then 45 :: natCodes n.natAbs else natCodes n.toNat

mutual
/-- `JSON.stringify` on the modelled value universe, as character codes:
`null`, decimal numbers, quoted escaped strings, `[..,..]` arrays and
`{"k":v,..}` objects (34 `"`, 44 `,`, 58 `:`, 91 `[`, 93 `]`,
123 `\x7b`, 125 `\x7d`). -/
def stringifyJson : Json → List Nat
  | .null => [110, 117, 108, 108]
  | .num n => numCodes n
  | .str s => 34 :: (escapeCodes s ++ [34])
  | .arr xs => 91 :: (stringifyArr xs ++ [93])
  | .obj fs => 123 :: (stringifyObj fs ++ [125])
/-- Array elements, comma-separated. -/
def stringifyArr : JArr → List Nat
  | .nil => []
  | .cons x .nil => stringifyJson x
  | .cons x (.cons y t) => stringifyJson x ++ 44 :: stringifyArr (.cons y t)
/-- Object fields, comma-separated, each `"key":value`. -/
def stringifyObj : JObj → List Nat
  | .nil => []
  | .cons k v .nil => 34 :: (escapeCodes k ++ [34, 58]) ++ stringifyJson v
  | .cons k v (.cons k2 v2 t) =>
      (34 :: (escapeCodes k ++ [34, 58]) ++ stringifyJson v) ++
        44 :: stringifyObj (.cons k2 v2 t)
end

/-! ## Main-thread state: request queue, readback, state cache

A `Request` models one entry of `this.requests` (the `resolve`/`reject`
continuations are not data; their invocations appear as `Effect`s).  The
queue is kept as a list in ascending id order, matching `for (var r in
this.requests)` enumeration of the integer-keyed object. -/

/-- A point in normalized viewport coordinates. -/
structure Point where
  x : ℚ
  y : ℚ
deriving DecidableEq, Repr

/-- One pending selection request: `{id, point, state, sent}` (a fresh
request has no `sent` property, i.e. falsy). -/
structure Request where
  id : Nat
  point : Point
  state : Option String
  sent : Bool := false
deriving DecidableEq, Repr

/-- The value a request's promise is resolved with:
`{feature, changed, request, selection_colors, group}` (the empty
resolution carries no `group` and an empty `selection_colors`).  Once
stored into `this.states` it additionally carries the (initially absent,
i.e. falsy) `update_pending` flag read by `updateState`. -/
structure SelectionResult where
  feature : Option Json
  changed : Bool
  request : Request
  selection_colors : List (Option (Nat × Nat × Nat × Nat))
  group : Option GroupInfo
  update_pending : Bool := false
deriving DecidableEq, Repr

/-- Observable interactions of the main-thread code: worker messages,
promise settlement and logging. -/
inductive Effect where
  | postFeatureLookup (wid : Nat) (reqId : Nat) (key : Nat)
  | postGroupColorBroadcast (group_key : String)
  | logError (reqId : Nat)
  | resolveReq (reqId : Nat) (res : SelectionResult)
  | rejectReq (reqId : Nat) (payload : Request)
deriving DecidableEq, Repr

/-- The data captured by the `.then` continuation that `finishRead`
installs on the group-color broadcast when a feature was found; the
request is resolved (and removed) only when the colors arrive. -/
structure PendingResolve where
  reqId : Nat
  feature : Json
  changed : Bool
  group : Option GroupInfo
deriving DecidableEq, Repr

/-- Main-thread instance state of `FeatureSelection`: the pending request
queue, the currently selected feature, the per-UI-state cache and the
lazily initialized request id counter. -/
structure MainState where
  requests : List Request
  feature : Option Json
  states : List (String × Option SelectionResult)
  selection_request_id : Option Nat := none
deriving DecidableEq, Repr

/-- A worker reply `{id, feature, group}` handed to `finishRead` (the
empty message `{id}` sent for an empty pixel has no `feature` and no
`group`). -/
structure FinishMessage where
  id : Nat
  feature : Option Json := none
  group : Option GroupInfo := none
deriving DecidableEq, Repr

/-- Queue lookup `this.requests[id]`. -/
def findRequest (reqs : List Request) (id : Nat) : Option Request :=
  reqs.find? (fun r => r.id = id)

/-- Queue removal `delete this.requests[id]`. -/
def removeRequest (reqs : List Request) (id : Nat) : List Request :=
  reqs.filter (fun r => r.id ≠ id)

/-- `FeatureSelection.getFeatureAt(point, state)`: allocates the next
request id (`(this.selection_request_id + 1) || 0` starts at 0 when the
counter is still undefined) and appends a pending entry to the queue. -/
def getFeatureAt (point : Point) (state : Option String) (s : MainState) : MainState :=
  let id := match s.selection_request_id with
    | none => 0
    | some i => i + 1
  { s with
    selection_request_id := some id
    requests := s.requests ++ [{ id := id, point := point, state := state }] }

/-- `FeatureSelection.pendingRequests()`: the queue when non-empty
(JS returns the falsy count 0 otherwise). -/
def pendingRequests (s : MainState) : Option (List Request) :=
  if s.requests.length = 0 then none else some s.requests

/-- `FeatureSelection.clearPendingRequests()`: requests already sent to a
worker are skipped; every other request is rejected with `{request}` and
deleted from the queue. -/
def clearPendingRequests (s : MainState) : MainState × List Effect :=
  ({ s with requests := (go s.requests).1 }, (go s.requests).2)
where
  go : List Request → List Request × List Effect
  | [] => ([], [])
  | r :: t =>
    let rest := go t
    if r.sent then (r :: rest.1, rest.2) else (rest.1, .rejectReq r.id r :: rest.2)

/-- The `changed` computation of `finishRead`: true when exactly one side
is null, or both are non-null and their `JSON.stringify` serializations
differ. -/
def computeChanged (feature old : Option Json) : Bool :=
  match feature, old with
  | some _, none => true
  | none, some _ => true
  | some f, some g => stringifyJson f ≠ stringifyJson g
  | none, none => false

/-- `FeatureSelection.finishRead(message)`.  Unknown id: log and return.
Otherwise compute `changed`, store the feature as currently selected;
with a feature, broadcast `getFeatureSelectionGroupColor` to all workers
and leave the request in the queue for the captured continuation
(returned as a `PendingResolve`); without one, resolve the request with
the empty result and delete it. -/
def finishRead (s : MainState) (m : FinishMessage) :
    MainState × List Effect × Option PendingResolve :=
  match findRequest s.requests m.id with
  | none => (s, [.logError m.id], none)
  | some request =>
    let changed := computeChanged m.feature s.feature
    let s1 := { s with feature := m.feature }
    match m.feature with
    | some f =>
      -- `message.group.key`: a worker reply carrying a feature always
      -- carries its group (`getSelector` sets one unconditionally).
      let gkey := (m.group.map GroupInfo.key).getD ""
      (s1, [.postGroupColorBroadcast gkey],
        some { reqId := m.id, feature := f, changed := changed, group := m.group })
    | none =>
      ({ s1 with requests := removeRequest s1.requests m.id },
        [.resolveReq m.id
          { feature := none, changed := changed, request := request,
            selection_colors := [], group := none }],
        none)

/-- The continuation installed by `finishRead` when a feature was found,
run when the group-color broadcast completes: resolve the request with
`{feature, changed, request, selection_colors, group}` and delete it. -/
def finishReadComplete (s : MainState) (p : PendingResolve)
    (selection_colors : List (Option (Nat × Nat × Nat × Nat))) :
    MainState × List Effect :=
  match findRequest s.requests p.reqId with
  | none => (s, [])
  | some request =>
    ({ s with requests := removeRequest s.requests p.reqId },
      [.resolveReq p.reqId
        { feature := some p.feature, changed := p.changed, request := request,
          selection_colors := selection_colors, group := p.group }])

/-- The worker pool: `workers[i]` is true when a live worker is installed
under id `i` (`this.workers[worker_id] != null`). -/
def workerAt (workers : List Bool) (i : Nat) : Bool :=
  workers.getD i false

/-- The per-request body of the deferred read pass, for the request with
the given id.  The pixel sampled for the request by `gl.readPixels` at
`(floor(point.x*width), floor((1-point.y)*height))` is supplied by
`sample`; its four bytes are decoded with the same key expression as
`createSelector`, the worker id is the alpha byte.  An empty pixel
(worker id 255) finishes the read inline with the bare `{id}` message;
a live worker gets a `getFeatureSelection` post; a dead worker id gets
nothing.  In every non-empty case the request is marked `sent` (for the
empty case the source sets `sent` on the object it just deleted from the
queue, which is unobservable). -/
def processRequest (workers : List Bool) (sample : Request → Nat × Nat × Nat × Nat)
    (s : MainState) (id : Nat) : MainState × List Effect :=
  match findRequest s.requests id with
  | none => (s, [])
  | some request =>
    if request.sent then (s, [])
    else
      let px := sample request
      let feature_key := mkKey px.1 px.2.1 px.2.2.1 px.2.2.2
      let worker_id := px.2.2.2
      if worker_id ≠ 255 then
        let s' := { s with
          requests := s.requests.map (fun r => if r.id = id then { r with sent := true } else r) }
        if workerAt workers worker_id then
          (s', [.postFeatureLookup worker_id id feature_key])
        else
          (s', [])
      else
        let fin := finishRead s { id := id }
        (fin.1, fin.2.1)

/-- The deferred read pass body: iterate over the ids queued when the
pass starts, processing each request in turn. -/
def readLoop (workers : List Bool) (sample : Request → Nat × Nat × Nat × Nat)
    (s : MainState) (ids : List Nat) : MainState × List Effect :=
  match ids with
  | [] => (s, [])
  | id :: rest =>
    let fst := processRequest workers sample s id
    let snd := readLoop workers sample fst.1 rest
    (snd.1, fst.2 ++ snd.2)

/-- One firing of the deferred selection read (the `setTimeout` body of
`read()` once past the lock gate). -/
def readPass (workers : List Bool) (sample : Request → Nat × Nat × Nat × Nat)
    (s : MainState) : MainState × List Effect :=
  readLoop workers sample s (s.requests.map Request.id)

/-! ## `updateState` and the state cache -/

/-- Count of truthy entries: `selection_colors.filter(x => x).length`. -/
def countSome (l : List (Option (Nat × Nat × Nat × Nat))) : Nat :=
  (l.filterMap id).length

/-- `FeatureSelection.updateState(state_key)`: returns with no effect
(`Promise.resolve()`) when the state is absent (or cleared), has no
group, already has an update pending, or already has colors from every
worker; otherwise marks the update pending and broadcasts
`getFeatureSelectionGroupColor` for the state's group key. -/
def updateState (workers : List Bool) (s : MainState) (state_key : String) :
    MainState × List Effect :=
  match (assocFind state_key s.states).getD none with
  | none => (s, [])
  | some st =>
    match st.group with
    | none => (s, [])
    | some g =>
      if st.update_pending ∨ countSome st.selection_colors = workers.length then
        (s, [])
      else
        let st' := { st with update_pending := true }
        ({ s with states := (state_key, some st') :: s.states },
          [.postGroupColorBroadcast g.key])

/-- The completion continuation of `updateState`: store the returned
colors and clear the pending flag. -/
def updateStateComplete (s : MainState) (state_key : String)
    (selection_colors : List (Option (Nat × Nat × Nat × Nat))) : MainState :=
  match (assocFind state_key s.states).getD none with
  | none => s
  | some st =>
    { s with states :=
        (state_key,
          some { st with selection_colors := selection_colors, update_pending := false })
        :: s.states }

/-- `FeatureSelection.clearState(state_key)`: `this.states[state_key] = null`. -/
def clearState (s : MainState) (state_key : String) : MainState :=
  { s with states := (state_key, none) :: s.states }

/-! ## The debounced readback scheduler

`read()` clears any outstanding `setTimeout` and schedules a new one.
The timer world is modelled by the id of the currently scheduled timeout
(`read_delay_timer`, `none` when no live timer): a `read` event carries
the fresh id `setTimeout` returns and replaces the current one (the
replaced id is thereby cancelled and can no longer fire), and a `fire`
event runs the deferred sample pass only if its id is the one still
scheduled — counting one buffer sample unless the lock gate reports the
frame unsafe. -/

structure Sched where
  read_delay_timer : Option Nat
  samples : Nat
deriving DecidableEq, Repr

/-- Events of the scheduler: a `read()` call scheduling timer `t`, or the
timeout `t` coming due under lock state `locked`. -/
inductive SchedEv where
  | read (t : Nat)
  | fire (t : Nat) (locked : Bool)
deriving DecidableEq, Repr

/-- One scheduler step. -/
def schedStep (s : Sched) (e : SchedEv) : Sched :=
  match e with
  | .read t => { s with read_delay_timer := some t }
  | .fire t locked =>
    if s.read_delay_timer = some t then
      if locked then { s with read_delay_timer := none }
      else { read_delay_timer := none, samples := s.samples + 1 }
    else s

/-- A trace of scheduler events. -/
def schedRun (s : Sched) (es : List SchedEv) : Sched :=
  es.foldl schedStep s

/-- A character-code list that does not begin with a decimal digit (the
shape of every continuation that can follow a serialized number without
extending it). -/
def nonDigitStart (l : List Nat) : Prop :=
  ∀ c ∈ l.head?, ¬(48 ≤ c ∧ c ≤ 57)

/-- The class of characters a value's serialization can begin with,
per constructor: `n`ull, `-`/digit, `"`, `[`, `\x7b`. -/
def jsonHeadOk : Json → Nat → Prop
  | .null, c => c = 110
  | .num _, c => c = 45 ∨ (48 ≤ c ∧ c ≤ 57)
  | .str _, c => c = 34
  | .arr _, c => c = 91
  | .obj _, c => c = 123

/-- The group value derived by `getSelector` for one call's arguments. -/
def groupValueArgs (c : GetSelArgs) : Option String :=
  groupValueOf c.draw.selection_prop c.feature c.context

/-- The composite group key `selection_group + ':' + value` derived by
`getSelector` for one call's arguments. -/
def groupKeyArgs (c : GetSelArgs) : String :=
  c.draw.selection_group ++ ":" ++ jsToString (groupValueArgs c)

/-- Placeholder element for out-of-range indexing into run results. -/
def dummySelector : Nat × SelectorEntry :=
  (0, { color := (0, 0, 0, 0) })

/-- The group index color `getSelector` assigns for a truthy group value
under composite key `gkey`: the existing binding if one exists, else a
fresh color from the incremented group counter. -/
def groupColorResult (s : WorkerSel) (gkey : String) : Nat × Nat × Nat × Nat :=
  match assocFind gkey s.groups with
  | some g => g
  | none => (and255 (s.group_index + 1), and255 (jsShr (s.group_index + 1) 8),
      and255 (jsShr (s.group_index + 1) 16), 255)

/-- The color key produced for (post-increment) counter value `idx` under
worker prefix `pfx` (definitional abbreviation for the key computed in
`createSelector`). -/
def selKey (idx pfx : Nat) : Nat :=
  mkKey (selBytes idx pfx).1 (selBytes idx pfx).2.1 (selBytes idx pfx).2.2.1
    (selBytes idx pfx).2.2.2

/-! # Theorems -/

/-! ## Arithmetic facts about the 32-bit color key encoding -/

theorem and255_lt (a : Int) : and255 a < 256 := by
  unfold and255 toInt32
  omega

theorem toInt32_range (n : Int) :
    -2147483648 ≤ toInt32 n ∧ toInt32 n < 2147483648 := by
  unfold toInt32
  omega

theorem cast_pow8 : ((2 ^ 8 : Nat) : Int) = 256 := by norm_num

theorem cast_pow16 : ((2 ^ 16 : Nat) : Int) = 65536 := by norm_num

theorem cast_pow24 : ((2 ^ 24 : Nat) : Int) = 16777216 := by norm_num

theorem jsShl8_eq (g : Nat) (h : g < 256) : jsShl g 8 = 256 * g := by
  unfold jsShl toInt32
  rw [cast_pow8]
  omega

theorem jsShl16_eq (b : Nat) (h : b < 256) : jsShl b 16 = 65536 * b := by
  unfold jsShl toInt32
  rw [cast_pow16]
  omega

theorem jsShl24_eq (a : Nat) (h : a < 256) :
    jsShl a 24 = 16777216 * a ∨ jsShl a 24 = 16777216 * a - 4294967296 := by
  unfold jsShl toInt32
  rw [cast_pow24]
  omega

/-- `a << 24` is a multiple of `2^24` whatever `a` is (the wrap mod `2^32`
subtracts a multiple of `2^24`). -/
theorem jsShl24_mul (a : Int) : ∃ k : Int, jsShl a 24 = 16777216 * k := by
  refine ⟨toInt32 a - 256 * ((toInt32 a * 16777216 + 2147483648) / 4294967296), ?_⟩
  unfold jsShl toInt32
  rw [cast_pow24]
  omega

theorem mkKey_eq_of_lt (ir ig ib ia : Nat) (h1 : ir < 256) (h2 : ig < 256)
    (h3 : ib < 256) (h4 : ia < 256) :
    mkKey ir ig ib ia = ir + 256 * ig + 65536 * ib + 16777216 * ia := by
  unfold mkKey
  rw [jsShl8_eq ig h2, jsShl16_eq ib h3]
  rcases jsShl24_eq ia h4 with h24 | h24 <;>
    · rw [h24]; unfold toUint32; omega

/-- The low 24 bits of the key recover the low three bytes, whatever the
alpha byte is. -/
theorem mkKey_mod_of_lt (ir ig ib ia : Nat) (h1 : ir < 256) (h2 : ig < 256)
    (h3 : ib < 256) :
    mkKey ir ig ib ia % 16777216 = ir + 256 * ig + 65536 * ib := by
  unfold mkKey
  rw [jsShl8_eq ig h2, jsShl16_eq ib h3]
  obtain ⟨k, hk⟩ := jsShl24_mul (ia : Int)
  have hr : -2147483648 ≤ jsShl (ia : Int) 24 ∧ jsShl (ia : Int) 24 < 2147483648 :=
    toInt32_range _
  rw [hk] at hr ⊢
  unfold toUint32
  omega

theorem and255_nat_of_lt (idx : Nat) : and255 idx = idx % 256 := by
  unfold and255 toInt32
  omega

theorem and255_shr8_of_lt (idx : Nat) (h : idx < 16777216) :
    and255 (jsShr idx 8) = idx / 256 % 256 := by
  unfold and255 jsShr toInt32
  rw [cast_pow8]
  omega

theorem and255_shr16_of_lt (idx : Nat) (h : idx < 16777216) :
    and255 (jsShr idx 16) = idx / 65536 % 256 := by
  unfold and255 jsShr toInt32
  rw [cast_pow16]
  omega

theorem selBytes_of_lt (idx pfx : Nat) (h : idx < 16777216) :
    selBytes idx pfx = (idx % 256, idx / 256 % 256, idx / 65536 % 256, pfx) := by
  unfold selBytes
  rw [and255_nat_of_lt idx, and255_shr8_of_lt idx h, and255_shr16_of_lt idx h]

/-- As long as the counter stays below `2^24`, it can be read back off the
low 24 bits of the key, for any worker prefix. -/
theorem selKey_mod (idx pfx : Nat) (h : idx < 16777216) :
    selKey idx pfx % 16777216 = idx := by
  unfold selKey
  rw [selBytes_of_lt idx pfx h]
  show mkKey (idx % 256) (idx / 256 % 256) (idx / 65536 % 256) pfx % 16777216 = idx
  rw [mkKey_mod_of_lt _ _ _ _ (by omega) (by omega) (by omega)]
  omega

/-! ## C1: distinctness of allocated color keys -/

theorem createSelector_key (tile : Tile) (s : WorkerSel) :
    (createSelector tile s).1.1 = selKey (s.map_index + 1) ( WorkerSel.map_prefix s) := by
  simp only [createSelector, selKey]

theorem selKey_def (idx pfx : Nat) :
    selKey idx pfx = mkKey (selBytes idx pfx).1 (selBytes idx pfx).2.1
      (selBytes idx pfx).2.2.1 (selBytes idx pfx).2.2.2 := rfl

theorem selBytes_alpha (idx pfx : Nat) : (selBytes idx pfx).2.2.2 = pfx := rfl

/-- First byte of a freshly allocated group index color. -/
theorem groupColorResult_fresh (s : WorkerSel) (k : String)
    (h : assocFind k s.groups = none) :
    (groupColorResult s k).1 = (s.group_index + 1) % 256 := by
  simp only [groupColorResult, h]
  unfold and255 toInt32
  omega

attribute [irreducible] toInt32 toUint32 jsShl jsShr and255 mkKey selBytes selKey

theorem createSelector_map_index (tile : Tile) (s : WorkerSel) :
    (createSelector tile s).2.map_index = s.map_index + 1 := by
  simp only [createSelector]

theorem createSelector_map_prefix (tile : Tile) (s : WorkerSel) :
    WorkerSel.map_prefix (createSelector tile s).2 = WorkerSel.map_prefix s := by
  simp only [createSelector]

theorem runCreate_nil (s : WorkerSel) : runCreate [] s = ([], s) := by
  simp only [runCreate]

theorem runCreate_cons (tile : Tile) (rest : List Tile) (s : WorkerSel) :
    runCreate (tile :: rest) s =
      ((createSelector tile s).1 :: (runCreate rest (createSelector tile s).2).1,
        (runCreate rest (createSelector tile s).2).2) := by
  simp only [runCreate]

/-- The list of keys handed out by `n` successive allocations starting
from counter value `idx`. -/
def keyRun (idx pfx n : Nat) : List Nat :=
  match n with
  | 0 => []
  | m + 1 => selKey (idx + 1) pfx :: keyRun (idx + 1) pfx m

/-- The keys handed out by a run of `createSelector` calls are the
consecutive counter values, encoded. -/
theorem runCreate_keys (tl : List Tile) (s : WorkerSel) :
    (runCreate tl s).1.map Prod.fst =
      keyRun s.map_index ( WorkerSel.map_prefix s) tl.length := by
  induction tl generalizing s with
  | nil =>
    rw [runCreate_nil]
    rfl
  | cons tile rest ih =>
    rw [runCreate_cons, List.map_cons, createSelector_key, ih,
      createSelector_map_index, createSelector_map_prefix, List.length_cons]
    rfl

theorem keyRun_mem (n idx pfx k : Nat) (h : k ∈ keyRun idx pfx n) :
    ∃ d, d < n ∧ k = selKey (idx + 1 + d) pfx := by
  induction n generalizing idx with
  | zero => cases h
  | succ m ih =>
    rw [keyRun] at h
    rcases List.mem_cons.mp h with h0 | h1
    · exact ⟨0, by omega, by rw [h0]⟩
    · obtain ⟨d, hd, hk⟩ := ih (idx + 1) h1
      refine ⟨d + 1, by omega, ?_⟩
      rw [hk]
      have e : idx + 1 + 1 + d = idx + 1 + (d + 1) := by omega
      rw [e]

theorem keyRun_nodup (n idx pfx : Nat) (h : idx + n < 16777216) :
    (keyRun idx pfx n).Nodup := by
  induction n generalizing idx with
  | zero => exact List.nodup_nil
  | succ m ih =>
    rw [keyRun, List.nodup_cons]
    refine ⟨?_, ih (idx + 1) (by omega)⟩
    intro hmem
    obtain ⟨d, hd, hk⟩ := keyRun_mem m (idx + 1) pfx _ hmem
    have h1 := selKey_mod (idx + 1) pfx (by omega)
    have h2 := selKey_mod (idx + 1 + 1 + d) pfx (by omega)
    rw [hk] at h1
    omega

/-- **C1.** Within one worker instance, starting from a reset of the
static state, any sequence of `createSelector` calls whose allocation
counter never exceeds 24 bits returns pairwise distinct 32-bit color
keys. -/
theorem C1_colorKeys_pairwise_distinct (s0 : WorkerSel) (tl : List Tile)
    (h : tl.length < 16777216) :
    ((runCreate tl (reset s0)).1.map Prod.fst).Nodup := by
  rw [runCreate_keys]
  have hz : (reset s0).map_index = 0 := rfl
  rw [hz]
  exact keyRun_nodup tl.length 0 ( WorkerSel.map_prefix (reset s0)) (by omega)

/-! ## C9: unroutable worker replies are logged and dropped -/

/-- **C9.** When `finishRead` receives a reply whose id matches no queued
request, it only logs: the request queue, the currently selected feature
and the state cache are all left untouched, and no message is posted to
any worker. -/
theorem C9_unroutable_reply_dropped (s : MainState) (m : FinishMessage)
    (h : findRequest s.requests m.id = none) :
    finishRead s m = (s, [.logError m.id], none) := by
  unfold finishRead
  rw [h]

/-- Witness for C9: a reply with id 7 against an empty queue. -/
theorem C9_witness :
    findRequest (MainState.requests ⟨[], none, [], none⟩) 7 = none ∧
      finishRead ⟨[], none, [], none⟩ ⟨7, none, none⟩ =
        (⟨[], none, [], none⟩, [.logError 7], none) :=
  ⟨rfl, C9_unroutable_reply_dropped ⟨[], none, [], none⟩ ⟨7, none, none⟩ rfl⟩

/-! ## C5: cancellation rejects exactly the unsent requests -/

theorem clearGo_eq (l : List Request) :
    clearPendingRequests.go l =
      (l.filter (fun r => r.sent),
        (l.filter (fun r => !r.sent)).map (fun r => Effect.rejectReq r.id r)) := by
  induction l with
  | nil => rfl
  | cons r t ih =>
    simp only [clearPendingRequests.go, ih, List.filter_cons]
    cases hs : r.sent
    · simp
    · simp

/-- **C5.** `clearPendingRequests` rejects every queued request whose
`sent` flag is false — each with a `{request}` payload identifying it —
and removes exactly those from the queue, keeping every already-sent
request unmodified. -/
theorem C5_cancelAll_rejects_unsent (s : MainState) :
    clearPendingRequests s =
      ({ s with requests := s.requests.filter (fun r => r.sent) },
        (s.requests.filter (fun r => !r.sent)).map (fun r => Effect.rejectReq r.id r)) := by
  unfold clearPendingRequests
  rw [clearGo_eq]

/-! ## C3: empty-pixel requests resolve inline, touching no worker -/

/-- `finishRead` on the bare `{id}` message sent for an empty pixel:
clears the selected feature, resolves the request with the empty result
and removes it from the queue. -/
theorem finishRead_empty (s : MainState) (id : Nat) (req : Request)
    (hfind : findRequest s.requests id = some req) :
    finishRead s ⟨id, none, none⟩ =
      ({ s with feature := none, requests := removeRequest s.requests id },
        [.resolveReq id
          { feature := none, changed := computeChanged none s.feature,
            request := req, selection_colors := [], group := none }], none) := by
  unfold finishRead
  rw [show (⟨id, none, none⟩ : FinishMessage).id = id from rfl]
  rw [hfind]

/-- **C3.** A pending (un-sent) request whose sampled pixel has alpha byte
255 is resolved during the read pass with `feature: null`, empty
`selection_colors` and no group, is removed from the queue, and the only
effect of its processing is that resolution — in particular no message is
posted to any worker. -/
theorem C3_empty_pixel_resolves_without_worker (workers : List Bool)
    (sample : Request → Nat × Nat × Nat × Nat) (s : MainState) (id : Nat)
    (req : Request) (hfind : findRequest s.requests id = some req)
    (hsent : req.sent = false) (hpx : (sample req).2.2.2 = 255) :
    processRequest workers sample s id =
      ({ s with feature := none, requests := removeRequest s.requests id },
        [.resolveReq id
          { feature := none, changed := computeChanged none s.feature,
            request := req, selection_colors := [], group := none }]) := by
  unfold processRequest
  rw [hfind]
  simp only [hsent, Bool.false_eq_true, if_false, hpx]
  rw [if_neg (by omega : ¬ (255 : Nat) ≠ 255)]
  rw [finishRead_empty s id req hfind]

/-- Witness for C3: one queued request over an all-empty selection
buffer. -/
theorem C3_witness :
    (fun (s : MainState) (req : Request) =>
      findRequest s.requests 0 = some req ∧ req.sent = false ∧
        ((fun _ => (255, 255, 255, 255)) req).2.2.2 = 255 ∧
        processRequest [] (fun _ => (255, 255, 255, 255)) s 0 =
          ({ s with feature := none, requests := removeRequest s.requests 0 },
            [.resolveReq 0
              { feature := none, changed := computeChanged none s.feature,
                request := req, selection_colors := [], group := none }]))
      ⟨[⟨0, ⟨0, 0⟩, none, false⟩], none, [], some 0⟩ ⟨0, ⟨0, 0⟩, none, false⟩ := by
  refine ⟨rfl, rfl, rfl, ?_⟩
  exact C3_empty_pixel_resolves_without_worker [] (fun _ => (255, 255, 255, 255))
    ⟨[⟨0, ⟨0, 0⟩, none, false⟩], none, [], some 0⟩ 0 ⟨0, ⟨0, 0⟩, none, false⟩ rfl rfl rfl

/-! ## C10: a decoded worker id with no live worker wedges the request -/

theorem clearPendingRequests_kept (s : MainState) :
    (clearPendingRequests s).1.requests = s.requests.filter (fun r => r.sent) := by
  unfold clearPendingRequests
  rw [clearGo_eq]

theorem clearPendingRequests_effects (s : MainState) :
    (clearPendingRequests s).2 =
      (s.requests.filter (fun r => !r.sent)).map (fun r => Effect.rejectReq r.id r) := by
  unfold clearPendingRequests
  rw [clearGo_eq]

/-- **C10.** When the sampled pixel names a non-empty worker id with no
live worker behind it, the read pass still marks the request `sent` and
produces no effect at all (no dispatch, no resolution, no rejection);
any request marked `sent` is skipped by every subsequent read pass and
is never rejected (nor removed) by `clearPendingRequests` — so the
request stays queued forever. -/
theorem C10_dead_worker_request_stuck (workers : List Bool)
    (sample : Request → Nat × Nat × Nat × Nat) (s : MainState) (id : Nat)
    (req : Request) (hfind : findRequest s.requests id = some req)
    (hsent : req.sent = false) (hwid : (sample req).2.2.2 ≠ 255)
    (hdead : workerAt workers ((sample req).2.2.2) = false) :
    processRequest workers sample s id =
      ({ s with requests :=
          s.requests.map (fun r => if r.id = id then { r with sent := true } else r) },
        []) ∧
      (∀ (s' : MainState) (r' : Request), findRequest s'.requests id = some r' →
        r'.sent = true → processRequest workers sample s' id = (s', [])) ∧
      (∀ (s' : MainState) (r' : Request), r' ∈ s'.requests → r'.sent = true →
        r' ∈ (clearPendingRequests s').1.requests ∧
          ∀ e ∈ (clearPendingRequests s').2, e ≠ Effect.rejectReq r'.id r') := by
  refine ⟨?_, ?_, ?_⟩
  · unfold processRequest
    rw [hfind]
    simp only [hsent, Bool.false_eq_true, if_false]
    rw [if_pos hwid, hdead]
    rw [if_neg Bool.false_ne_true]
  · intro s' r' hf hs
    unfold processRequest
    rw [hf]
    simp only [hs]
    rw [if_pos trivial]
  · intro s' r' hmem hs
    constructor
    · rw [clearPendingRequests_kept]
      exact List.mem_filter.mpr ⟨hmem, hs⟩
    · intro e he
      rw [clearPendingRequests_effects] at he
      obtain ⟨r, hr, hre⟩ := List.mem_map.mp he
      intro hcontra
      rw [hcontra] at hre
      injection hre with h1 h2
      have hrs := (List.mem_filter.mp hr).2
      rw [h2, hs] at hrs
      simp at hrs

/-- Witness for C10: a pixel naming worker id 3 with an empty worker
pool marks the request sent with no effects. -/
theorem C10_witness :
    findRequest (MainState.requests ⟨[⟨5, ⟨0, 0⟩, none, false⟩], none, [], some 5⟩) 5 =
        some ⟨5, ⟨0, 0⟩, none, false⟩ ∧
      Request.sent ⟨5, ⟨0, 0⟩, none, false⟩ = false ∧
      ((fun _ => (1, 0, 0, 3)) (⟨5, ⟨0, 0⟩, none, false⟩ : Request)).2.2.2 ≠ 255 ∧
      workerAt [] ((fun _ => (1, 0, 0, 3)) (⟨5, ⟨0, 0⟩, none, false⟩ : Request)).2.2.2 =
        false ∧
      processRequest [] (fun _ => (1, 0, 0, 3)) ⟨[⟨5, ⟨0, 0⟩, none, false⟩], none, [], some 5⟩ 5 =
        ({ (⟨[⟨5, ⟨0, 0⟩, none, false⟩], none, [], some 5⟩ : MainState) with requests := [⟨5, ⟨0, 0⟩, none, false⟩].map (fun r => if r.id = 5 then { r with sent := true } else r) },
          []) := by
  refine ⟨rfl, rfl, by decide, rfl, ?_⟩
  exact (C10_dead_worker_request_stuck [] (fun _ => (1, 0, 0, 3))
    ⟨[⟨5, ⟨0, 0⟩, none, false⟩], none, [], some 5⟩ 5 ⟨5, ⟨0, 0⟩, none, false⟩
    rfl rfl (by decide) rfl).1

/-! ## C7: the deferred readback is debounced -/

theorem schedStep_read (s : Sched) (t : Nat) :
    schedStep s (.read t) = { s with read_delay_timer := some t } := rfl

theorem schedStep_fire_hit (s : Sched) (t : Nat) (h : s.read_delay_timer = some t) :
    schedStep s (.fire t false) = { read_delay_timer := none, samples := s.samples + 1 } := by
  simp only [schedStep, Bool.false_eq_true, if_false]
  rw [if_pos h]

theorem schedStep_fire_miss (s : Sched) (t : Nat) (locked : Bool)
    (h : s.read_delay_timer ≠ some t) : schedStep s (.fire t locked) = s := by
  simp only [schedStep]
  rw [if_neg h]

/-- **C7.** Each `read()` call cancels the outstanding deferred sample and
schedules a fresh one, so two `read()` calls inside the debounce window
followed by their timers coming due produce exactly one buffer sample
(and the first, cancelled timer alone produces none). -/
theorem C7_read_debounced (s : Sched) (t1 t2 : Nat) (h : t1 ≠ t2) :
    (schedRun s [.read t1, .read t2, .fire t1 false, .fire t2 false]).samples =
        s.samples + 1 ∧
      (schedRun s [.read t1, .read t2, .fire t1 false]).samples = s.samples := by
  have hmiss : ∀ s' : Sched, Sched.read_delay_timer s' = some t2 →
      Sched.read_delay_timer s' ≠ some t1 := by
    intro s' hs' hc
    rw [hs'] at hc
    exact h (Option.some.inj hc).symm
  constructor
  · show (schedStep (schedStep (schedStep (schedStep s (.read t1)) (.read t2))
      (.fire t1 false)) (.fire t2 false)).samples = s.samples + 1
    rw [schedStep_read, schedStep_read, schedStep_fire_miss _ _ _ (hmiss _ rfl),
      schedStep_fire_hit _ _ rfl]
  · show (schedStep (schedStep (schedStep s (.read t1)) (.read t2))
      (.fire t1 false)).samples = s.samples
    rw [schedStep_read, schedStep_read, schedStep_fire_miss _ _ _ (hmiss _ rfl)]

/-- Witness for C7 at concrete timer ids 0 and 1. -/
theorem C7_witness :
    (0 : Nat) ≠ 1 ∧
      (schedRun ⟨none, 0⟩ [.read 0, .read 1, .fire 0 false, .fire 1 false]).samples = 0 + 1 ∧
      (schedRun ⟨none, 0⟩ [.read 0, .read 1, .fire 0 false]).samples = 0 := by
  refine ⟨by decide, ?_, ?_⟩
  · exact (C7_read_debounced ⟨none, 0⟩ 0 1 (by decide)).1
  · exact (C7_read_debounced ⟨none, 0⟩ 0 1 (by decide)).2

/-! ## C2: decoding a sampled pixel inverts the color key encoding -/

theorem createSelector_color (tile : Tile) (w : WorkerSel) :
    (createSelector tile w).1.2.color =
      selBytes (w.map_index + 1) ( WorkerSel.map_prefix w) := by
  simp only [createSelector]

theorem createSelector_stores (tile : Tile) (w : WorkerSel) :
    assocFind (createSelector tile w).1.1 (createSelector tile w).2.map =
      some (createSelector tile w).1.2 := by
  simp only [createSelector]
  simp [assocFind]

/-- **C2.** For a counter value below `2^24` and a worker prefix below
255: the entry is stored in the worker's map under the returned key; if a
request's sampled pixel bytes are exactly the entry's color bytes, the
key recomputed by `read()` equals that stored key, the worker id read
off the alpha byte equals the worker's prefix, and the read pass
dispatches the lookup to exactly that worker carrying exactly that
key. -/
theorem C2_pixel_decode_roundtrip (w : WorkerSel) (tile : Tile) (workers : List Bool)
    (sample : Request → Nat × Nat × Nat × Nat) (s : MainState) (id : Nat)
    (req : Request) (hidx : w.map_index + 1 < 16777216)
    (hpfx : WorkerSel.map_prefix w < 255)
    (hlive : workerAt workers ( WorkerSel.map_prefix w) = true)
    (hfind : findRequest s.requests id = some req) (hsent : req.sent = false)
    (hsample : sample req = (createSelector tile w).1.2.color) :
    assocFind (createSelector tile w).1.1 (createSelector tile w).2.map =
        some (createSelector tile w).1.2 ∧
      mkKey (sample req).1 (sample req).2.1 (sample req).2.2.1 (sample req).2.2.2 =
        (createSelector tile w).1.1 ∧
      (sample req).2.2.2 = WorkerSel.map_prefix w ∧
      processRequest workers sample s id =
        ({ s with requests := s.requests.map (fun r => if r.id = id then { r with sent := true } else r) },
          [.postFeatureLookup ( WorkerSel.map_prefix w) id (createSelector tile w).1.1]) := by
  have hbytes : sample req = selBytes (w.map_index + 1) ( WorkerSel.map_prefix w) := by
    rw [hsample, createSelector_color]
  have hkey : mkKey (sample req).1 (sample req).2.1 (sample req).2.2.1 (sample req).2.2.2 =
      (createSelector tile w).1.1 := by
    rw [hbytes, ← selKey_def, createSelector_key]
  have hw : (sample req).2.2.2 = WorkerSel.map_prefix w := by
    rw [hbytes, selBytes_alpha]
  refine ⟨createSelector_stores tile w, hkey, hw, ?_⟩
  unfold processRequest
  rw [hfind]
  simp only [hsent, Bool.false_eq_true, if_false]
  rw [if_pos (show (sample req).2.2.2 ≠ 255 by rw [hw]; omega)]
  rw [if_pos (show workerAt workers ((sample req).2.2.2) = true by rw [hw]; exact hlive)]
  rw [hkey, hw]

/-- Witness for C2: worker prefix 1, first allocation, live worker 1. -/
theorem C2_witness :
    WorkerSel.map_index ⟨[], [], [], 0, 0, 0, 1⟩ + 1 < 16777216 ∧
      WorkerSel.map_prefix ⟨[], [], [], 0, 0, 0, 1⟩ < 255 ∧
      workerAt [true, true] ( WorkerSel.map_prefix ⟨[], [], [], 0, 0, 0, 1⟩) = true ∧
      findRequest (MainState.requests ⟨[⟨0, ⟨0, 0⟩, none, false⟩], none, [], some 0⟩) 0 =
        some ⟨0, ⟨0, 0⟩, none, false⟩ ∧
      Request.sent ⟨0, ⟨0, 0⟩, none, false⟩ = false ∧
      ((fun _ => (createSelector ⟨"t", (0, 0, 0), 0, "s", 0⟩ ⟨[], [], [], 0, 0, 0, 1⟩).1.2.color)
          (⟨0, ⟨0, 0⟩, none, false⟩ : Request)) =
        (createSelector ⟨"t", (0, 0, 0), 0, "s", 0⟩ ⟨[], [], [], 0, 0, 0, 1⟩).1.2.color ∧
      ((fun _ => (createSelector ⟨"t", (0, 0, 0), 0, "s", 0⟩ ⟨[], [], [], 0, 0, 0, 1⟩).1.2.color)
          (⟨0, ⟨0, 0⟩, none, false⟩ : Request)).2.2.2 =
        WorkerSel.map_prefix ⟨[], [], [], 0, 0, 0, 1⟩ := by
  refine ⟨by norm_num, by norm_num, rfl, rfl, rfl, rfl, ?_⟩
  exact (C2_pixel_decode_roundtrip ⟨[], [], [], 0, 0, 0, 1⟩ ⟨"t", (0, 0, 0), 0, "s", 0⟩
    [true, true]
    (fun _ => (createSelector ⟨"t", (0, 0, 0), 0, "s", 0⟩ ⟨[], [], [], 0, 0, 0, 1⟩).1.2.color)
    ⟨[⟨0, ⟨0, 0⟩, none, false⟩], none, [], some 0⟩ 0 ⟨0, ⟨0, 0⟩, none, false⟩
    (by norm_num) (by norm_num) rfl rfl rfl rfl).2.2.1

/-! ## C6: `updateState` keeps at most one group-color request in flight -/

/-- **C6.** `updateState` is a no-op — state untouched, no worker
contacted (the source returns the already-resolved `Promise.resolve()`) —
whenever the state is absent or cleared, has no group, has an update
pending, or already holds selection colors from every known worker; and
once a call does issue a group-color request, any further call before
completion is such a no-op, so at most one request per state key is ever
outstanding. -/
theorem C6_updateState_single_flight (workers : List Bool) (s : MainState) (key : String) :
    ((assocFind key s.states).getD none = none → updateState workers s key = (s, [])) ∧
      (∀ st, (assocFind key s.states).getD none = some st → st.group = none →
        updateState workers s key = (s, [])) ∧
      (∀ st, (assocFind key s.states).getD none = some st → st.update_pending = true →
        updateState workers s key = (s, [])) ∧
      (∀ st, (assocFind key s.states).getD none = some st →
        countSome st.selection_colors = workers.length →
        updateState workers s key = (s, [])) ∧
      ((updateState workers s key).2 ≠ [] →
        updateState workers (updateState workers s key).1 key =
          ((updateState workers s key).1, [])) := by
  refine ⟨?_, ?_, ?_, ?_, ?_⟩
  · intro h
    simp only [updateState, h]
  · intro st h hg
    simp only [updateState, h, hg]
  · intro st h hp
    cases hg : st.group with
    | none => simp only [updateState, h, hg]
    | some g =>
      simp only [updateState, h, hg]
      rw [if_pos (Or.inl hp)]
  · intro st h hc
    cases hg : st.group with
    | none => simp only [updateState, h, hg]
    | some g =>
      simp only [updateState, h, hg]
      rw [if_pos (Or.inr hc)]
  · intro hne
    cases hL : (assocFind key s.states).getD none with
    | none =>
      exfalso
      apply hne
      simp only [updateState, hL]
    | some st =>
      cases hg : st.group with
      | none =>
        exfalso
        apply hne
        simp only [updateState, hL, hg]
      | some g =>
        by_cases hcond : (st.update_pending = true ∨ countSome st.selection_colors = workers.length)
        · exfalso
          apply hne
          simp only [updateState, hL, hg]
          rw [if_pos hcond]
        · have hres : updateState workers s key =
              ({ s with states := (key, some { st with update_pending := true }) :: s.states },
                [.postGroupColorBroadcast g.key]) := by
            simp only [updateState, hL, hg]
            rw [if_neg hcond]
          rw [hres]
          simp only [updateState]
          rw [show assocFind key ((key, some { st with update_pending := true }) :: s.states)
              = some (some { st with update_pending := true }) from by simp [assocFind]]
          rw [show ({ st with update_pending := true } : SelectionResult).group = st.group
              from rfl, hg]
          simp only [Option.getD_some]
          rw [if_pos (Or.inl trivial)]

/-- Witness for C6: an absent state key is a no-op. -/
theorem C6_witness :
    ((assocFind "hover" (MainState.states ⟨[], none, [], none⟩)).getD none = none) ∧
      updateState [] ⟨[], none, [], none⟩ "hover" = (⟨[], none, [], none⟩, []) :=
  ⟨rfl, (C6_updateState_single_flight [] ⟨[], none, [], none⟩ "hover").1 rfl⟩

/-- Witness for C1 at a concrete input: three allocations from a reset
worker state yield three distinct keys. -/
theorem C1_witness :
    (2 : Nat) < 16777216 ∧
      ((runCreate
          [⟨"t", (0, 0, 0), 0, "src", 0⟩, ⟨"t", (0, 0, 0), 0, "src", 0⟩]
          (reset ⟨[], [], [], 0, 0, 5, 3⟩)).1.map Prod.fst).Nodup := by
  refine ⟨by norm_num, ?_⟩
  exact C1_colorKeys_pairwise_distinct ⟨[], [], [], 0, 0, 5, 3⟩
    [⟨"t", (0, 0, 0), 0, "src", 0⟩, ⟨"t", (0, 0, 0), 0, "src", 0⟩] (by norm_num)

/-! ## C8: group index color assignment in `getSelector` -/

theorem createSelector_groups (tile : Tile) (s : WorkerSel) :
    (createSelector tile s).2.groups = s.groups := by
  simp only [createSelector]

theorem createSelector_group_index (tile : Tile) (s : WorkerSel) :
    (createSelector tile s).2.group_index = s.group_index := by
  simp only [createSelector]

/-- `getSelector` under a falsy group value: the sentinel index color is
assigned and the group registry is untouched. -/
theorem getSelector_falsy (feature : FeatureIn) (draw : Draw) (tile : Tile)
    (context : Ctx) (s : WorkerSel)
    (h : jsTruthy (groupValueOf draw.selection_prop feature context) = false) :
    (getSelector feature draw tile context s).1.2.group =
        some { index := (255, 255, 255, 255),
               key := draw.selection_group ++ ":" ++
                 jsToString (groupValueOf draw.selection_prop feature context),
               value := groupValueOf draw.selection_prop feature context } ∧
      (getSelector feature draw tile context s).2.groups = s.groups := by
  constructor
  · simp only [getSelector, h, Bool.false_eq_true, if_false, Option.getD_none]
  · simp only [getSelector, h, Bool.false_eq_true, if_false, createSelector_groups]

/-- `getSelector` under a truthy group value: the assigned index color is
`groupColorResult`, it is bound to the composite key afterwards, and all
existing bindings survive. -/
theorem getSelector_truthy (feature : FeatureIn) (draw : Draw) (tile : Tile)
    (context : Ctx) (s : WorkerSel)
    (h : jsTruthy (groupValueOf draw.selection_prop feature context) = true) :
    (getSelector feature draw tile context s).1.2.group =
        some { index := groupColorResult s (draw.selection_group ++ ":" ++
                 jsToString (groupValueOf draw.selection_prop feature context)),
               key := draw.selection_group ++ ":" ++
                 jsToString (groupValueOf draw.selection_prop feature context),
               value := groupValueOf draw.selection_prop feature context } ∧
      assocFind (draw.selection_group ++ ":" ++
          jsToString (groupValueOf draw.selection_prop feature context))
          (getSelector feature draw tile context s).2.groups =
        some (groupColorResult s (draw.selection_group ++ ":" ++
          jsToString (groupValueOf draw.selection_prop feature context))) ∧
      ∀ (k : String) (g : Nat × Nat × Nat × Nat), assocFind k s.groups = some g →
        assocFind k (getSelector feature draw tile context s).2.groups = some g := by
  cases hb : assocFind (draw.selection_group ++ ":" ++
      jsToString (groupValueOf draw.selection_prop feature context)) s.groups with
  | none =>
    refine ⟨?_, ?_, ?_⟩
    · simp only [getSelector, h, if_true, createSelector_groups, hb,
        createSelector_group_index, groupColorResult, Option.getD_some,
        Nat.cast_add, Nat.cast_one]
    · simp only [getSelector, h, if_true, createSelector_groups, hb,
        createSelector_group_index, groupColorResult, assocFind,
        Nat.cast_add, Nat.cast_one]
    · intro k g' hk
      simp only [getSelector, h, if_true, createSelector_groups, hb,
        createSelector_group_index, assocFind]
      by_cases hke : draw.selection_group ++ ":" ++
          jsToString (groupValueOf draw.selection_prop feature context) = k
      · rw [hke] at hb
        rw [hb] at hk
        cases hk
      · rw [if_neg hke]
        exact hk
  | some g =>
    refine ⟨?_, ?_, ?_⟩
    · simp only [getSelector, h, if_true, createSelector_groups, hb,
        groupColorResult, Option.getD_some]
    · simp only [getSelector, h, if_true, createSelector_groups, hb,
        groupColorResult]
    · intro k g' hk
      simp only [getSelector, h, if_true, createSelector_groups, hb]
      exact hk

/-- `getSelector` never drops an existing group binding. -/
theorem getSelector_preserves (feature : FeatureIn) (draw : Draw) (tile : Tile)
    (context : Ctx) (s : WorkerSel) (k : String) (g : Nat × Nat × Nat × Nat)
    (hk : assocFind k s.groups = some g) :
    assocFind k (getSelector feature draw tile context s).2.groups = some g := by
  cases ht : jsTruthy (groupValueOf draw.selection_prop feature context) with
  | false =>
    rw [(getSelector_falsy feature draw tile context s ht).2]
    exact hk
  | true =>
    exact (getSelector_truthy feature draw tile context s ht).2.2 k g hk

theorem groupValueArgs_def (c : GetSelArgs) :
    groupValueArgs c = groupValueOf c.draw.selection_prop c.feature c.context := rfl

theorem groupKeyArgs_def (c : GetSelArgs) :
    groupKeyArgs c = c.draw.selection_group ++ ":" ++
      jsToString (groupValueOf c.draw.selection_prop c.feature c.context) := rfl

theorem runGetSelector_nil (s : WorkerSel) : runGetSelector [] s = ([], s) := by
  simp only [runGetSelector]

theorem runGetSelector_cons (c : GetSelArgs) (rest : List GetSelArgs) (s : WorkerSel) :
    runGetSelector (c :: rest) s =
      ((getSelector c.feature c.draw c.tile c.context s).1 ::
          (runGetSelector rest (getSelector c.feature c.draw c.tile c.context s).2).1,
        (runGetSelector rest (getSelector c.feature c.draw c.tile c.context s).2).2) := by
  simp only [runGetSelector]

/-- Over a whole run: a truthy call whose composite key is already bound
to a color gets exactly that color. -/
theorem runGetSelector_lookup (calls : List GetSelArgs) (s : WorkerSel) (j : Nat)
    (hj : j < calls.length) (k : String) (g : Nat × Nat × Nat × Nat)
    (hbind : assocFind k s.groups = some g)
    (ht : jsTruthy (groupValueArgs (calls.get ⟨j, hj⟩)) = true)
    (hk : groupKeyArgs (calls.get ⟨j, hj⟩) = k) :
    ((runGetSelector calls s).1.getD j dummySelector).2.group =
      some { index := g, key := groupKeyArgs (calls.get ⟨j, hj⟩),
             value := groupValueArgs (calls.get ⟨j, hj⟩) } := by
  induction calls generalizing s j with
  | nil => exact absurd hj (Nat.not_lt_zero j)
  | cons c rest ih =>
    cases j with
    | zero =>
      rw [runGetSelector_cons, List.getD_cons_zero]
      have ht' : jsTruthy (groupValueOf c.draw.selection_prop c.feature c.context) =
        true := ht
      have hk' : groupKeyArgs c = k := hk
      have h1 := (getSelector_truthy c.feature c.draw c.tile c.context s ht').1
      rw [← groupKeyArgs_def] at h1
      rw [h1, hk', hk]
      simp only [groupColorResult, hbind]
      rfl
    | succ j' =>
      rw [runGetSelector_cons, List.getD_cons_succ]
      exact ih (getSelector c.feature c.draw c.tile c.context s).2 j'
        (Nat.succ_lt_succ_iff.mp hj)
        (getSelector_preserves c.feature c.draw c.tile c.context s k g hbind) ht hk

/-- Over a whole run: a falsy call gets the sentinel index color. -/
theorem runGetSelector_sentinel (calls : List GetSelArgs) (s : WorkerSel) (i : Nat)
    (hi : i < calls.length)
    (hf : jsTruthy (groupValueArgs (calls.get ⟨i, hi⟩)) = false) :
    (((runGetSelector calls s).1.getD i dummySelector).2.group.map GroupInfo.index) =
      some (255, 255, 255, 255) := by
  induction calls generalizing s i with
  | nil => exact absurd hi (Nat.not_lt_zero i)
  | cons c rest ih =>
    cases i with
    | zero =>
      rw [runGetSelector_cons, List.getD_cons_zero]
      have hf' : jsTruthy (groupValueOf c.draw.selection_prop c.feature c.context) =
        false := hf
      rw [(getSelector_falsy c.feature c.draw c.tile c.context s hf').1]
      rfl
    | succ i' =>
      rw [runGetSelector_cons, List.getD_cons_succ]
      exact ih (getSelector c.feature c.draw c.tile c.context s).2 i'
        (Nat.succ_lt_succ_iff.mp hi) hf

/-- Over a whole run: two truthy calls with the same composite key, the
first strictly before the second, receive the same index color. -/
theorem runGetSelector_pair_lt (calls : List GetSelArgs) (s : WorkerSel) (i j : Nat)
    (hi : i < calls.length) (hj : j < calls.length) (hij : i < j)
    (hti : jsTruthy (groupValueArgs (calls.get ⟨i, hi⟩)) = true)
    (htj : jsTruthy (groupValueArgs (calls.get ⟨j, hj⟩)) = true)
    (hkey : groupKeyArgs (calls.get ⟨i, hi⟩) = groupKeyArgs (calls.get ⟨j, hj⟩)) :
    (((runGetSelector calls s).1.getD i dummySelector).2.group.map GroupInfo.index) =
      (((runGetSelector calls s).1.getD j dummySelector).2.group.map GroupInfo.index) := by
  induction calls generalizing s i j with
  | nil => exact absurd hi (Nat.not_lt_zero i)
  | cons c rest ih =>
    cases j with
    | zero => exact absurd hij (Nat.not_lt_zero i)
    | succ j' =>
      cases i with
      | zero =>
        rw [runGetSelector_cons, List.getD_cons_zero, List.getD_cons_succ]
        have hti' : jsTruthy (groupValueOf c.draw.selection_prop c.feature c.context) =
          true := hti
        have h1 := (getSelector_truthy c.feature c.draw c.tile c.context s hti').1
        have h2 := (getSelector_truthy c.feature c.draw c.tile c.context s hti').2.1
        rw [← groupKeyArgs_def] at h1 h2
        have h3 := runGetSelector_lookup rest
          (getSelector c.feature c.draw c.tile c.context s).2 j'
          (Nat.succ_lt_succ_iff.mp hj) (groupKeyArgs c)
          (groupColorResult s (groupKeyArgs c)) h2 htj hkey.symm
        rw [h1, h3]
        rfl
      | succ i' =>
        rw [runGetSelector_cons, List.getD_cons_succ, List.getD_cons_succ]
        exact ih (getSelector c.feature c.draw c.tile c.context s).2 i' j'
          (Nat.succ_lt_succ_iff.mp hi) (Nat.succ_lt_succ_iff.mp hj)
          (Nat.succ_lt_succ_iff.mp hij) hti htj hkey

/-- **C8 (amended).** For every pair of `getSelector` calls whose group
values are truthy and yield the same composite key
(`selection_group + ':' + value`), the same group index color is assigned
(allocated from the group counter on first sight, reused thereafter);
and whenever the selection rule yields no truthy value, the assigned
group index color is the sentinel `[255,255,255,255]`. -/
theorem C8_amended_group_colors (calls : List GetSelArgs) (s : WorkerSel) :
    (∀ (i j : Nat) (hi : i < calls.length) (hj : j < calls.length),
      jsTruthy (groupValueArgs (calls.get ⟨i, hi⟩)) = true →
      jsTruthy (groupValueArgs (calls.get ⟨j, hj⟩)) = true →
      groupKeyArgs (calls.get ⟨i, hi⟩) = groupKeyArgs (calls.get ⟨j, hj⟩) →
      (((runGetSelector calls s).1.getD i dummySelector).2.group.map GroupInfo.index) =
        (((runGetSelector calls s).1.getD j dummySelector).2.group.map GroupInfo.index)) ∧
    (∀ (i : Nat) (hi : i < calls.length),
      jsTruthy (groupValueArgs (calls.get ⟨i, hi⟩)) = false →
      (((runGetSelector calls s).1.getD i dummySelector).2.group.map GroupInfo.index) =
        some (255, 255, 255, 255)) := by
  constructor
  · intro i j hi hj hti htj hkey
    rcases Nat.lt_trichotomy i j with hij | hij | hij
    · exact runGetSelector_pair_lt calls s i j hi hj hij hti htj hkey
    · subst hij
      rfl
    · exact (runGetSelector_pair_lt calls s j i hj hi hij htj hti hkey.symm).symm
  · intro i hi hf
    exact runGetSelector_sentinel calls s i hi hf

/-- Witness for the amended C8: two identical truthy calls in one run
receive the same index color. -/
theorem C8_witness :
    jsTruthy (groupValueArgs (([⟨⟨[]⟩, ⟨.func (fun _ => some "a"), "g", none, none⟩,
        ⟨"t", (0, 0, 0), 0, "s", 0⟩, ⟨"s", "l", []⟩⟩,
      ⟨⟨[]⟩, ⟨.func (fun _ => some "a"), "g", none, none⟩,
        ⟨"t", (0, 0, 0), 0, "s", 0⟩, ⟨"s", "l", []⟩⟩] : List GetSelArgs).get
        ⟨0, by norm_num⟩)) = true ∧
      ((runGetSelector [⟨⟨[]⟩, ⟨.func (fun _ => some "a"), "g", none, none⟩,
          ⟨"t", (0, 0, 0), 0, "s", 0⟩, ⟨"s", "l", []⟩⟩,
        ⟨⟨[]⟩, ⟨.func (fun _ => some "a"), "g", none, none⟩,
          ⟨"t", (0, 0, 0), 0, "s", 0⟩, ⟨"s", "l", []⟩⟩] ⟨[], [], [], 0, 0, 0, 0⟩).1.getD 0
          dummySelector).2.group.map GroupInfo.index =
      ((runGetSelector [⟨⟨[]⟩, ⟨.func (fun _ => some "a"), "g", none, none⟩,
          ⟨"t", (0, 0, 0), 0, "s", 0⟩, ⟨"s", "l", []⟩⟩,
        ⟨⟨[]⟩, ⟨.func (fun _ => some "a"), "g", none, none⟩,
          ⟨"t", (0, 0, 0), 0, "s", 0⟩, ⟨"s", "l", []⟩⟩] ⟨[], [], [], 0, 0, 0, 0⟩).1.getD 1
          dummySelector).2.group.map GroupInfo.index := by
  refine ⟨by decide, ?_⟩
  exact (C8_amended_group_colors [⟨⟨[]⟩, ⟨.func (fun _ => some "a"), "g", none, none⟩,
      ⟨"t", (0, 0, 0), 0, "s", 0⟩, ⟨"s", "l", []⟩⟩,
    ⟨⟨[]⟩, ⟨.func (fun _ => some "a"), "g", none, none⟩,
      ⟨"t", (0, 0, 0), 0, "s", 0⟩, ⟨"s", "l", []⟩⟩] ⟨[], [], [], 0, 0, 0, 0⟩).1
    0 1 (by norm_num) (by norm_num) (by decide) (by decide) rfl

/-- **C8 counterexample.** Two `getSelector` calls whose derived group
values yield the same composite key `"g:undefined"` — the first via a
selection function returning the string `"undefined"` (truthy), the
second via a function returning no value (`undefined`, which JS coerces
to the same string) — are assigned different group index colors, so the
claim as frozen (same composite key implies same index color) is false
on the code. -/
theorem C8_counterexample :
    (getSelector ⟨[]⟩ ⟨.func (fun _ => some "undefined"), "g", none, none⟩
          ⟨"t", (0, 0, 0), 0, "s", 0⟩ ⟨"s", "l", []⟩
          ⟨[], [], [], 0, 0, 0, 0⟩).1.2.group.map GroupInfo.key =
        (getSelector ⟨[]⟩ ⟨.func (fun _ => none), "g", none, none⟩
          ⟨"t", (0, 0, 0), 0, "s", 0⟩ ⟨"s", "l", []⟩
          (getSelector ⟨[]⟩ ⟨.func (fun _ => some "undefined"), "g", none, none⟩
            ⟨"t", (0, 0, 0), 0, "s", 0⟩ ⟨"s", "l", []⟩
            ⟨[], [], [], 0, 0, 0, 0⟩).2).1.2.group.map GroupInfo.key ∧
      (getSelector ⟨[]⟩ ⟨.func (fun _ => some "undefined"), "g", none, none⟩
          ⟨"t", (0, 0, 0), 0, "s", 0⟩ ⟨"s", "l", []⟩
          ⟨[], [], [], 0, 0, 0, 0⟩).1.2.group.map GroupInfo.index ≠
        (getSelector ⟨[]⟩ ⟨.func (fun _ => none), "g", none, none⟩
          ⟨"t", (0, 0, 0), 0, "s", 0⟩ ⟨"s", "l", []⟩
          (getSelector ⟨[]⟩ ⟨.func (fun _ => some "undefined"), "g", none, none⟩
            ⟨"t", (0, 0, 0), 0, "s", 0⟩ ⟨"s", "l", []⟩
            ⟨[], [], [], 0, 0, 0, 0⟩).2).1.2.group.map GroupInfo.index := by
  have ht1 : jsTruthy (groupValueOf
      (⟨.func (fun _ => some "undefined"), "g", none, none⟩ : Draw).selection_prop
      ⟨[]⟩ ⟨"s", "l", []⟩) = true := by decide
  have ht2 : jsTruthy (groupValueOf
      (⟨.func (fun _ => none), "g", none, none⟩ : Draw).selection_prop
      ⟨[]⟩ ⟨"s", "l", []⟩) = false := by decide
  have h1 := (getSelector_truthy ⟨[]⟩ ⟨.func (fun _ => some "undefined"), "g", none, none⟩
    ⟨"t", (0, 0, 0), 0, "s", 0⟩ ⟨"s", "l", []⟩ ⟨[], [], [], 0, 0, 0, 0⟩ ht1).1
  have h2 := (getSelector_falsy ⟨[]⟩ ⟨.func (fun _ => none), "g", none, none⟩
    ⟨"t", (0, 0, 0), 0, "s", 0⟩ ⟨"s", "l", []⟩
    (getSelector ⟨[]⟩ ⟨.func (fun _ => some "undefined"), "g", none, none⟩
      ⟨"t", (0, 0, 0), 0, "s", 0⟩ ⟨"s", "l", []⟩ ⟨[], [], [], 0, 0, 0, 0⟩).2 ht2).1
  rw [h1, h2]
  simp only [Option.map_some']
  constructor
  · decide
  · intro hcon
    have hX := Option.some.inj hcon
    have h255 : (GroupInfo.index
        { index := groupColorResult ⟨[], [], [], 0, 0, 0, 0⟩
            ((⟨.func (fun _ => some "undefined"), "g", none, none⟩ : Draw).selection_group
              ++ ":" ++ jsToString (groupValueOf
                (⟨.func (fun _ => some "undefined"), "g", none, none⟩ : Draw).selection_prop
                ⟨[]⟩ ⟨"s", "l", []⟩)),
          key := (⟨.func (fun _ => some "undefined"), "g", none, none⟩ : Draw).selection_group
              ++ ":" ++ jsToString (groupValueOf
                (⟨.func (fun _ => some "undefined"), "g", none, none⟩ : Draw).selection_prop
                ⟨[]⟩ ⟨"s", "l", []⟩),
          value := groupValueOf
            (⟨.func (fun _ => some "undefined"), "g", none, none⟩ : Draw).selection_prop
            ⟨[]⟩ ⟨"s", "l", []⟩ }).1 = 255 := by
      rw [hX]
    have hfresh := groupColorResult_fresh ⟨[], [], [], 0, 0, 0, 0⟩
      ((⟨.func (fun _ => some "undefined"), "g", none, none⟩ : Draw).selection_group
        ++ ":" ++ jsToString (groupValueOf
          (⟨.func (fun _ => some "undefined"), "g", none, none⟩ : Draw).selection_prop
          ⟨[]⟩ ⟨"s", "l", []⟩)) rfl
    have h255' : (groupColorResult (⟨[], [], [], 0, 0, 0, 0⟩ : WorkerSel)
        ((⟨.func (fun _ => some "undefined"), "g", none, none⟩ : Draw).selection_group
          ++ ":" ++ jsToString (groupValueOf
            (⟨.func (fun _ => some "undefined"), "g", none, none⟩ : Draw).selection_prop
            ⟨[]⟩ ⟨"s", "l", []⟩))).1 = 255 := h255
    have hz : WorkerSel.group_index ⟨[], [], [], 0, 0, 0, 0⟩ = 0 := rfl
    rw [hz] at hfresh
    omega

/-! ## C4: the changed flag is structural inequality

`finishRead` compares features with `JSON.stringify`; on the modelled
value universe (ordered object fields, escaped strings, integer leaves)
the serializer is injective, so the comparison is exactly structural
equality. -/

theorem escapeCodes_append_inj (s1 : List Nat) : ∀ (s2 r1 r2 : List Nat),
    escapeCodes s1 ++ 34 :: r1 = escapeCodes s2 ++ 34 :: r2 → s1 = s2 ∧ r1 = r2 := by
  induction s1 with
  | nil =>
    intro s2 r1 r2 h
    cases s2 with
    | nil =>
      simp only [escapeCodes, List.nil_append, List.cons.injEq, true_and] at h
      exact ⟨rfl, h⟩
    | cons c t =>
      simp only [escapeCodes] at h
      by_cases hc : c = 34 ∨ c = 92
      · rw [if_pos hc] at h
        simp only [List.nil_append, List.cons_append, List.cons.injEq] at h
        omega
      · rw [if_neg hc] at h
        simp only [List.nil_append, List.cons_append, List.cons.injEq] at h
        push_neg at hc
        omega
  | cons c t ih =>
    intro s2 r1 r2 h
    cases s2 with
    | nil =>
      simp only [escapeCodes] at h
      by_cases hc : c = 34 ∨ c = 92
      · rw [if_pos hc] at h
        simp only [List.nil_append, List.cons_append, List.cons.injEq] at h
        omega
      · rw [if_neg hc] at h
        simp only [List.nil_append, List.cons_append, List.cons.injEq] at h
        push_neg at hc
        omega
    | cons c' t' =>
      simp only [escapeCodes] at h
      by_cases hc : c = 34 ∨ c = 92 <;> by_cases hc' : c' = 34 ∨ c' = 92
      · rw [if_pos hc, if_pos hc'] at h
        simp only [List.cons_append, List.cons.injEq, true_and] at h
        obtain ⟨hcc, htail⟩ := h
        obtain ⟨ht, hr⟩ := ih t' r1 r2 htail
        exact ⟨by rw [hcc, ht], hr⟩
      · rw [if_pos hc, if_neg hc'] at h
        simp only [List.cons_append, List.cons.injEq] at h
        push_neg at hc'
        omega
      · rw [if_neg hc, if_pos hc'] at h
        simp only [List.cons_append, List.cons.injEq] at h
        push_neg at hc
        omega
      · rw [if_neg hc, if_neg hc'] at h
        simp only [List.cons_append, List.cons.injEq] at h
        obtain ⟨hcc, htail⟩ := h
        obtain ⟨ht, hr⟩ := ih t' r1 r2 htail
        exact ⟨by rw [hcc, ht], hr⟩

theorem natCodes_digits (m : Nat) : ∀ c ∈ natCodes m, 48 ≤ c ∧ c ≤ 57 := by
  intro c hc
  unfold natCodes at hc
  by_cases hm : m = 0
  · rw [if_pos hm] at hc
    simp only [List.mem_singleton] at hc
    omega
  · rw [if_neg hm] at hc
    simp only [List.mem_map, List.mem_reverse] at hc
    obtain ⟨d, hd, rfl⟩ := hc
    have := Nat.digits_lt_base (by norm_num) hd
    omega

theorem natCodes_ne_nil (m : Nat) : natCodes m ≠ [] := by
  unfold natCodes
  by_cases hm : m = 0
  · rw [if_pos hm]
    simp
  · rw [if_neg hm]
    simp only [ne_eq, List.map_eq_nil, List.reverse_eq_nil_iff]
    exact Nat.digits_ne_nil_iff_ne_zero.mpr hm

theorem natCodes_head (m : Nat) :
    ∃ c t, natCodes m = c :: t ∧ 48 ≤ c ∧ c ≤ 57 := by
  cases he : natCodes m with
  | nil => exact absurd he (natCodes_ne_nil m)
  | cons c t =>
    refine ⟨c, t, rfl, ?_⟩
    have := natCodes_digits m c (by rw [he]; exact List.mem_cons_self c t)
    exact this

theorem add48_inj : Function.Injective (· + 48 : Nat → Nat) := by
  intro a b hab
  have h : a + 48 = b + 48 := hab
  omega

theorem natCodes_eq_singleton (m : Nat) (hm : m ≠ 0)
    (h : natCodes m = [48]) : False := by
  unfold natCodes at h
  rw [if_neg hm] at h
  have hlen := congrArg List.length h
  simp only [List.length_map, List.length_reverse, List.length_singleton] at hlen
  obtain ⟨d, hd⟩ : ∃ d, Nat.digits 10 m = [d] := by
    cases hdig : Nat.digits 10 m with
    | nil => rw [hdig] at hlen; simp at hlen
    | cons d t =>
      cases t with
      | nil => exact ⟨d, rfl⟩
      | cons d2 t2 => rw [hdig] at hlen; simp at hlen
  rw [hd] at h
  simp only [List.reverse_singleton, List.map_cons, List.map_nil,
    List.cons.injEq, and_true] at h
  have hd0 : d = 0 := by omega
  have hof := Nat.ofDigits_digits 10 m
  rw [hd, hd0] at hof
  simp [Nat.ofDigits] at hof
  exact hm hof.symm

theorem natCodes_inj (m1 m2 : Nat) (h : natCodes m1 = natCodes m2) : m1 = m2 := by
  by_cases h1 : m1 = 0 <;> by_cases h2 : m2 = 0
  · rw [h1, h2]
  · exfalso
    apply natCodes_eq_singleton m2 h2
    rw [← h, h1]
    unfold natCodes
    simp
  · exfalso
    apply natCodes_eq_singleton m1 h1
    rw [h, h2]
    unfold natCodes
    simp
  · unfold natCodes at h
    rw [if_neg h1, if_neg h2] at h
    have hrev := (List.map_injective_iff.mpr add48_inj) h
    have hdig := List.reverse_injective hrev
    have e1 := Nat.ofDigits_digits 10 m1
    have e2 := Nat.ofDigits_digits 10 m2
    rw [hdig] at e1
    rw [e2] at e1
    exact e1.symm

theorem digitRun_append_inj (xs : List Nat) : ∀ (ys r1 r2 : List Nat),
    (∀ c ∈ xs, 48 ≤ c ∧ c ≤ 57) → (∀ c ∈ ys, 48 ≤ c ∧ c ≤ 57) →
    nonDigitStart r1 → nonDigitStart r2 →
    xs ++ r1 = ys ++ r2 → xs = ys ∧ r1 = r2 := by
  induction xs with
  | nil =>
    intro ys r1 r2 hxs hys hr1 hr2 h
    cases ys with
    | nil => exact ⟨rfl, h⟩
    | cons y t =>
      exfalso
      simp only [List.nil_append, List.cons_append] at h
      have hy := hys y (List.mem_cons_self y t)
      have := hr1 y (by rw [h]; rfl)
      exact this hy
  | cons x t ih =>
    intro ys r1 r2 hxs hys hr1 hr2 h
    cases ys with
    | nil =>
      exfalso
      simp only [List.nil_append, List.cons_append] at h
      have hx := hxs x (List.mem_cons_self x t)
      have := hr2 x (by rw [← h]; rfl)
      exact this hx
    | cons y t' =>
      simp only [List.cons_append, List.cons.injEq] at h
      obtain ⟨hxy, htail⟩ := h
      obtain ⟨ht, hr⟩ := ih t' r1 r2
        (fun c hc => hxs c (List.mem_cons_of_mem x hc))
        (fun c hc => hys c (List.mem_cons_of_mem y hc)) hr1 hr2 htail
      exact ⟨by rw [hxy, ht], hr⟩

theorem numCodes_append_inj (n1 n2 : Int) (r1 r2 : List Nat)
    (hr1 : nonDigitStart r1) (hr2 : nonDigitStart r2)
    (h : numCodes n1 ++ r1 = numCodes n2 ++ r2) : n1 = n2 ∧ r1 = r2 := by
  unfold numCodes at h
  by_cases h1 : n1 < 0 <;> by_cases h2 : n2 < 0
  · rw [if_pos h1, if_pos h2] at h
    simp only [List.cons_append, List.cons.injEq, true_and] at h
    obtain ⟨he, hr⟩ := digitRun_append_inj (natCodes n1.natAbs) (natCodes n2.natAbs)
      r1 r2 (natCodes_digits _) (natCodes_digits _) hr1 hr2 h
    have := natCodes_inj _ _ he
    exact ⟨by omega, hr⟩
  · rw [if_pos h1, if_neg h2] at h
    obtain ⟨c, t, he, hc1, hc2⟩ := natCodes_head n2.toNat
    rw [he] at h
    simp only [List.cons_append, List.cons.injEq] at h
    obtain ⟨h45, -⟩ := h
    omega
  · rw [if_neg h1, if_pos h2] at h
    obtain ⟨c, t, he, hc1, hc2⟩ := natCodes_head n1.toNat
    rw [he] at h
    simp only [List.cons_append, List.cons.injEq] at h
    obtain ⟨h45, -⟩ := h
    omega
  · rw [if_neg h1, if_neg h2] at h
    obtain ⟨he, hr⟩ := digitRun_append_inj (natCodes n1.toNat) (natCodes n2.toNat)
      r1 r2 (natCodes_digits _) (natCodes_digits _) hr1 hr2 h
    have := natCodes_inj _ _ he
    exact ⟨by omega, hr⟩

theorem stringifyJson_head (j : Json) :
    ∃ c t, stringifyJson j = c :: t ∧ jsonHeadOk j c := by
  cases j with
  | null => exact ⟨110, _, rfl, rfl⟩
  | num n =>
    unfold stringifyJson numCodes
    by_cases hn : n < 0
    · rw [if_pos hn]
      exact ⟨45, _, rfl, Or.inl rfl⟩
    · rw [if_neg hn]
      obtain ⟨c, t, he, hb⟩ := natCodes_head n.toNat
      exact ⟨c, t, he, Or.inr hb⟩
  | str s => exact ⟨34, _, rfl, rfl⟩
  | arr xs => exact ⟨91, _, rfl, rfl⟩
  | obj fs => exact ⟨123, _, rfl, rfl⟩

theorem stringify_head_eq {a b : Json} {r1 r2 : List Nat}
    (h : stringifyJson a ++ r1 = stringifyJson b ++ r2) :
    ∃ c, jsonHeadOk a c ∧ jsonHeadOk b c := by
  obtain ⟨c1, t1, e1, k1⟩ := stringifyJson_head a
  obtain ⟨c2, t2, e2, k2⟩ := stringifyJson_head b
  rw [e1, e2] at h
  simp only [List.cons_append, List.cons.injEq] at h
  exact ⟨c1, k1, h.1 ▸ k2⟩

theorem nonDigitStart_nil : nonDigitStart [] := by
  intro c hc
  cases hc

theorem nonDigitStart_cons (c : Nat) (r : List Nat) (h : c < 48 ∨ 57 < c) :
    nonDigitStart (c :: r) := by
  intro d hd
  rw [List.head?_cons, Option.mem_def] at hd
  have hcd : c = d := Option.some.inj hd
  omega

theorem jsonHeadOk_range (j : Json) (c : Nat) (h : jsonHeadOk j c) :
    c = 110 ∨ c = 45 ∨ (48 ≤ c ∧ c ≤ 57) ∨ c = 34 ∨ c = 91 ∨ c = 123 := by
  cases j <;> simp only [jsonHeadOk] at h <;> tauto

mutual

theorem stringifyJson_append_inj (a b : Json) (r1 r2 : List Nat)
    (hr1 : nonDigitStart r1) (hr2 : nonDigitStart r2)
    (h : stringifyJson a ++ r1 = stringifyJson b ++ r2) : a = b ∧ r1 = r2 := by
  cases a <;> cases b <;>
    try (exfalso;
         obtain ⟨c, k1, k2⟩ := stringify_head_eq h;
         obtain h1 := jsonHeadOk_range _ _ k1;
         obtain h2 := jsonHeadOk_range _ _ k2;
         simp only [jsonHeadOk] at k1 k2;
         omega)
  · simp [stringifyJson] at h
    exact ⟨rfl, h⟩
  · rename_i n1 n2
    simp only [stringifyJson] at h
    obtain ⟨hn, hr⟩ := numCodes_append_inj n1 n2 r1 r2 hr1 hr2 h
    exact ⟨by rw [hn], hr⟩
  · rename_i s1 s2
    simp only [stringifyJson, List.cons_append, List.append_assoc,
      List.singleton_append] at h
    injection h with h0 h'
    obtain ⟨hs, hr⟩ := escapeCodes_append_inj s1 s2 r1 r2 h'
    exact ⟨by rw [hs], hr⟩
  · rename_i xs ys
    simp only [stringifyJson, List.cons_append, List.append_assoc,
      List.singleton_append] at h
    injection h with h0 h'
    obtain ⟨hx, hr⟩ := stringifyArr_append_inj xs ys r1 r2 h'
    exact ⟨by rw [hx], hr⟩
  · rename_i fs gs
    simp only [stringifyJson, List.cons_append, List.append_assoc,
      List.singleton_append] at h
    injection h with h0 h'
    obtain ⟨hf, hr⟩ := stringifyObj_append_inj fs gs r1 r2 h'
    exact ⟨by rw [hf], hr⟩

theorem stringifyArr_append_inj (xs ys : JArr) (r1 r2 : List Nat)
    (h : stringifyArr xs ++ 93 :: r1 = stringifyArr ys ++ 93 :: r2) :
    xs = ys ∧ r1 = r2 := by
  cases xs with
  | nil =>
    cases ys with
    | nil =>
      simp only [stringifyArr, List.nil_append] at h
      injection h with h0 h'
      exact ⟨rfl, h'⟩
    | cons y t =>
      exfalso
      obtain ⟨c, tt, he, hk⟩ := stringifyJson_head y
      have hrange := jsonHeadOk_range y c hk
      cases t with
      | nil =>
        simp only [stringifyArr, List.nil_append] at h
        rw [he] at h
        simp only [List.cons_append] at h
        injection h with h1 h2
        omega
      | cons z tz =>
        simp only [stringifyArr, List.nil_append, List.cons_append,
          List.append_assoc] at h
        rw [he] at h
        simp only [List.cons_append] at h
        injection h with h1 h2
        omega
  | cons x t1 =>
    cases ys with
    | nil =>
      exfalso
      obtain ⟨c, tt, he, hk⟩ := stringifyJson_head x
      have hrange := jsonHeadOk_range x c hk
      cases t1 with
      | nil =>
        simp only [stringifyArr, List.nil_append] at h
        rw [he] at h
        simp only [List.cons_append] at h
        injection h with h1 h2
        omega
      | cons z tz =>
        simp only [stringifyArr, List.nil_append, List.cons_append,
          List.append_assoc] at h
        rw [he] at h
        simp only [List.cons_append] at h
        injection h with h1 h2
        omega
    | cons y t2 =>
      cases t1 with
      | nil =>
        cases t2 with
        | nil =>
          simp only [stringifyArr] at h
          obtain ⟨hxy, hr⟩ := stringifyJson_append_inj x y (93 :: r1) (93 :: r2)
            (nonDigitStart_cons 93 r1 (by omega))
            (nonDigitStart_cons 93 r2 (by omega)) h
          injection hr with h0 hr'
          exact ⟨by rw [hxy], hr'⟩
        | cons z2 t2' =>
          exfalso
          simp only [stringifyArr, List.cons_append, List.append_assoc] at h
          obtain ⟨hxy, hr⟩ := stringifyJson_append_inj x y (93 :: r1)
            (44 :: (stringifyArr (JArr.cons z2 t2') ++ 93 :: r2))
            (nonDigitStart_cons 93 r1 (by omega))
            (nonDigitStart_cons 44 _ (by omega)) h
          injection hr with h1 h2
          omega
      | cons z1 t1' =>
        cases t2 with
        | nil =>
          exfalso
          simp only [stringifyArr, List.cons_append, List.append_assoc] at h
          obtain ⟨hxy, hr⟩ := stringifyJson_append_inj x y
            (44 :: (stringifyArr (JArr.cons z1 t1') ++ 93 :: r1)) (93 :: r2)
            (nonDigitStart_cons 44 _ (by omega))
            (nonDigitStart_cons 93 r2 (by omega)) h
          injection hr with h1 h2
          omega
        | cons z2 t2' =>
          simp only [stringifyArr, List.cons_append, List.append_assoc] at h
          obtain ⟨hxy, hr⟩ := stringifyJson_append_inj x y
            (44 :: (stringifyArr (JArr.cons z1 t1') ++ 93 :: r1))
            (44 :: (stringifyArr (JArr.cons z2 t2') ++ 93 :: r2))
            (nonDigitStart_cons 44 _ (by omega))
            (nonDigitStart_cons 44 _ (by omega)) h
          injection hr with h0 hr'
          obtain ⟨ht, hr''⟩ := stringifyArr_append_inj (JArr.cons z1 t1')
            (JArr.cons z2 t2') r1 r2 hr'
          exact ⟨by rw [hxy, ht], hr''⟩

theorem stringifyObj_append_inj (fs gs : JObj) (r1 r2 : List Nat)
    (h : stringifyObj fs ++ 125 :: r1 = stringifyObj gs ++ 125 :: r2) :
    fs = gs ∧ r1 = r2 := by
  cases fs with
  | nil =>
    cases gs with
    | nil =>
      simp only [stringifyObj, List.nil_append] at h
      injection h with h0 h'
      exact ⟨rfl, h'⟩
    | cons k v t =>
      exfalso
      cases t with
      | nil =>
        simp only [stringifyObj, List.nil_append, List.cons_append] at h
        injection h with h1 h2
        omega
      | cons k2 v2 t2 =>
        simp only [stringifyObj, List.nil_append, List.cons_append,
          List.append_assoc] at h
        injection h with h1 h2
        omega
  | cons k1 v1 t1 =>
    cases gs with
    | nil =>
      exfalso
      cases t1 with
      | nil =>
        simp only [stringifyObj, List.nil_append, List.cons_append] at h
        injection h with h1 h2
        omega
      | cons k2 v2 t2 =>
        simp only [stringifyObj, List.nil_append, List.cons_append,
          List.append_assoc] at h
        injection h with h1 h2
        omega
    | cons k2 v2 t2 =>
      cases t1 with
      | nil =>
        cases t2 with
        | nil =>
          simp only [stringifyObj, List.cons_append, List.append_assoc,
            List.singleton_append] at h
          injection h with h0 h'
          obtain ⟨hk, hrest⟩ := escapeCodes_append_inj k1 k2 _ _ h'
          injection hrest with h58 hrest'
          obtain ⟨hv, hr⟩ := stringifyJson_append_inj v1 v2 (125 :: r1) (125 :: r2)
            (nonDigitStart_cons 125 r1 (by omega))
            (nonDigitStart_cons 125 r2 (by omega)) hrest'
          injection hr with h0 hr'
          exact ⟨by rw [hk, hv], hr'⟩
        | cons k3 v3 t3 =>
          exfalso
          simp only [stringifyObj, List.cons_append, List.append_assoc,
            List.singleton_append] at h
          injection h with h0 h'
          obtain ⟨hk, hrest⟩ := escapeCodes_append_inj k1 k2 _ _ h'
          injection hrest with h58 hrest'
          obtain ⟨hv, hr⟩ := stringifyJson_append_inj v1 v2 (125 :: r1)
            (44 :: (stringifyObj (JObj.cons k3 v3 t3) ++ 125 :: r2))
            (nonDigitStart_cons 125 r1 (by omega))
            (nonDigitStart_cons 44 _ (by omega)) hrest'
          injection hr with h1 h2
          omega
      | cons k3 v3 t3 =>
        cases t2 with
        | nil =>
          exfalso
          simp only [stringifyObj, List.cons_append, List.append_assoc,
            List.singleton_append] at h
          injection h with h0 h'
          obtain ⟨hk, hrest⟩ := escapeCodes_append_inj k1 k2 _ _ h'
          injection hrest with h58 hrest'
          obtain ⟨hv, hr⟩ := stringifyJson_append_inj v1 v2
            (44 :: (stringifyObj (JObj.cons k3 v3 t3) ++ 125 :: r1)) (125 :: r2)
            (nonDigitStart_cons 44 _ (by omega))
            (nonDigitStart_cons 125 r2 (by omega)) hrest'
          injection hr with h1 h2
          omega
        | cons k4 v4 t4 =>
          simp only [stringifyObj, List.cons_append, List.append_assoc,
            List.singleton_append] at h
          injection h with h0 h'
          obtain ⟨hk, hrest⟩ := escapeCodes_append_inj k1 k2 _ _ h'
          injection hrest with h58 hrest'
          obtain ⟨hv, hr⟩ := stringifyJson_append_inj v1 v2
            (44 :: (stringifyObj (JObj.cons k3 v3 t3) ++ 125 :: r1))
            (44 :: (stringifyObj (JObj.cons k4 v4 t4) ++ 125 :: r2))
            (nonDigitStart_cons 44 _ (by omega))
            (nonDigitStart_cons 44 _ (by omega)) hrest'
          injection hr with h0 hr'
          obtain ⟨ht, hr''⟩ := stringifyObj_append_inj (JObj.cons k3 v3 t3)
            (JObj.cons k4 v4 t4) r1 r2 hr'
          exact ⟨by rw [hk, hv, ht], hr''⟩

end

theorem stringifyJson_inj (a b : Json) (h : stringifyJson a = stringifyJson b) :
    a = b := by
  have h' : stringifyJson a ++ ([] : List Nat) = stringifyJson b ++ [] := by
    rw [List.append_nil, List.append_nil]
    exact h
  exact (stringifyJson_append_inj a b [] [] nonDigitStart_nil nonDigitStart_nil h').1

/-- **C4.** The `changed` flag `finishRead` computes is true exactly when
the newly resolved feature differs structurally from the previously
stored currently-selected feature — `JSON.stringify` equality on the
modelled value universe coincides with structural equality — with every
null/non-null transition counting as changed. -/
theorem C4_changed_iff_structural (feature old : Option Json) :
    computeChanged feature old = true ↔ feature ≠ old := by
  cases feature with
  | none =>
    cases old with
    | none => simp [computeChanged]
    | some g => simp [computeChanged]
  | some f =>
    cases old with
    | none => simp [computeChanged]
    | some g =>
      simp only [computeChanged, ne_eq, Option.some.injEq, decide_eq_true_eq]
      constructor
      · intro hsne heq
        exact hsne (by rw [heq])
      · intro hne hseq
        exact hne (stringifyJson_inj _ _ hseq)

/-- Witness for C4 at a concrete input: a null-to-feature transition is
flagged as changed. -/
theorem C4_witness :
    computeChanged (some Json.null) none = true ↔ some Json.null ≠ none :=
  C4_changed_iff_structural (some Json.null) none

/-- Witness for C5 at a concrete queue: one sent and one un-sent
request. -/
theorem C5_witness :
    clearPendingRequests ⟨[⟨0, ⟨0, 0⟩, none, true⟩, ⟨1, ⟨0, 0⟩, none, false⟩], none, [], some 1⟩ =
      ({ (⟨[⟨0, ⟨0, 0⟩, none, true⟩, ⟨1, ⟨0, 0⟩, none, false⟩], none, [], some 1⟩ : MainState) with
          requests := [⟨0, ⟨0, 0⟩, none, true⟩, ⟨1, ⟨0, 0⟩, none, false⟩].filter (fun r => r.sent) },
        ([⟨(0 : Nat), ⟨0, 0⟩, none, true⟩, ⟨1, ⟨0, 0⟩, none, false⟩].filter (fun r => !r.sent)).map
          (fun r => Effect.rejectReq r.id r)) :=
  C5_cancelAll_rejects_unsent
    ⟨[⟨0, ⟨0, 0⟩, none, true⟩, ⟨1, ⟨0, 0⟩, none, false⟩], none, [], some 1⟩

end Tangram
